import Mathlib

/-!
Verification of the Graphical-abstract repository (src/app.py) against its
specification.  The app has two tools: a graphical-abstract generator
(radial layout of independent variables around a dependent variable, with
keyword-colored arrows and optional labels) and a methodology-flowchart
designer (a step list kept in session state, with level computation on add,
parent reindexing on delete, and a level-based layout).

The specification additionally describes a renderer-agnostic Diagram Model
Builder (relationship codes, style rules, GraphIR, ValidationError) that is
not present in src/app.py; those parts are modelled from the spec, as marked
in the doc comments below.
-/

namespace GraphApp

/-! ### Spec-modelled diagram builder -/

/-- Modelled from the spec: the fixed set of known relationship codes
{POS, NEG, INS, OP, ON, OI, OPN, ONN, OIN}. -/
def knownCodes : List String :=
  ["POS", "NEG", "INS", "OP", "ON", "OI", "OPN", "ONN", "OIN"]

/-- Modelled from the spec: the known-code table's default colors.  The spec
pins NEG to #E74C3C and the unknown-code fallback to #7F8C8D; the other
entries are representative values the spec does not pin. -/
def knownColorTable : List (String × String) :=
  [("POS", "#2ECC71"), ("NEG", "#E74C3C"), ("INS", "#95A5A6"),
   ("OP", "#27AE60"), ("ON", "#C0392B"), ("OI", "#8E44AD"),
   ("OPN", "#16A085"), ("ONN", "#D35400"), ("OIN", "#2980B9")]

/-- Association-list lookup used for the code → color maps. -/
def lookupColor : List (String × String) → String → Option String
  | [], _ => none
  | (k, v) :: rest, code => if code = k then some v else lookupColor rest code

/-- Modelled from the spec: the edge-style rule, a pure function of the
code's text pattern, with the spec's fixed precedence: the exact code INS is
checked first, then "contains N and is not exactly NEG", then
"starts with O", otherwise solid. -/
def edgeStyle (code : String) : String :=
  if code = "INS" then "dotted"
  else if code.toList.contains 'N' = true ∧ code ≠ "NEG" then "dashed"
  else if code.toList.take 1 = ['O'] then "bold"
  else "solid"

/-- A variable: identifier plus optional group label (empty = ungrouped). -/
structure Variable where
  name : String
  group : String
deriving DecidableEq

/-- Background spec: a single fill color or a two-color gradient. -/
inductive Background where
  | solidFill (color : String)
  | gradient (color1 color2 : String)
deriving DecidableEq

/-- Modelled from the spec: StyleConfig — code → color mapping, label
visibility, edge width and background mode. -/
structure StyleConfig where
  colorMap : List (String × String)
  showLabels : Bool
  edgeWidth : ℚ
  background : Background
deriving DecidableEq

/-- Modelled from the spec: a Diagram — one dependent variable and an
ordered sequence of (variable, relationship-code) edges. -/
structure Diagram where
  dependent : String
  edges : List (Variable × String)
deriving DecidableEq

/-- A node of the intermediate representation. -/
structure Node where
  id : String
  isDependent : Bool
deriving DecidableEq

/-- An edge of the intermediate representation, with resolved visual
attributes. -/
structure EdgeIR where
  source : String
  target : String
  color : String
  style : String
  label : String
  penwidth : ℚ
deriving DecidableEq

/-- Modelled from the spec: the renderer-agnostic GraphIR. -/
structure GraphIR where
  nodes : List Node
  edges : List EdgeIR
  clusters : List (String × List String)
  background : Background
deriving DecidableEq

/-- Modelled from the spec: the two structural validation failures. -/
inductive ValidationError where
  | emptyDependent
  | emptyVariableName
deriving DecidableEq

/-- Modelled from the spec: color resolution — the style map first, then the
known-code table, then the documented gray fallback #7F8C8D. -/
def resolveColor (s : StyleConfig) (code : String) : String :=
  match lookupColor s.colorMap code with
  | some c => c
  | none =>
    match lookupColor knownColorTable code with
    | some c => c
    | none => "#7F8C8D"

/-- Keep the first occurrence of each string, dropping later duplicates. -/
def distinctFirst : List String → List String
  | [] => []
  | x :: xs => x :: (distinctFirst xs).filter (fun y => y ≠ x)

/-- Modelled from the spec: the Diagram Model Builder.  Validates the
dependent-variable name and the edge variable names, then produces the
GraphIR: one node per distinct variable plus the dependent node, one edge
per (variable, code) pair with resolved color, style, label and penwidth,
one cluster per distinct non-empty group label, and the background spec. -/
def build (d : Diagram) (s : StyleConfig) : Except ValidationError GraphIR :=
  if d.dependent = "" then .error .emptyDependent
  else if d.edges.any (fun e => e.1.name = "") then .error .emptyVariableName
  else .ok
    { nodes := { id := d.dependent, isDependent := true } ::
        (distinctFirst (d.edges.map (fun e => e.1.name))).map
          (fun n => { id := n, isDependent := false }),
      edges := d.edges.map (fun e =>
        { source := e.1.name, target := d.dependent,
          color := resolveColor s e.2, style := edgeStyle e.2,
          label := if s.showLabels then e.2 else "",
          penwidth := s.edgeWidth }),
      clusters := (distinctFirst
          ((d.edges.map (fun e => e.1.group)).filter (fun g => g ≠ ""))).map
        (fun g => (g, (d.edges.filter (fun e => e.1.group = g)).map
          (fun e => e.1.name))),
      background := s.background }

/-- The default style configuration used in the worked example: the full
known-code table as color map, labels on. -/
def defaultStyleConfig : StyleConfig :=
  { colorMap := knownColorTable, showLabels := true, edgeWidth := 2,
    background := Background.solidFill "#FFFFFF" }

/-- The worked example's diagram: dependent GDP, edges Inflation-NEG and
Tourism-POS. -/
def demoDiagram : Diagram :=
  { dependent := "GDP",
    edges := [(⟨"Inflation", ""⟩, "NEG"), (⟨"Tourism", ""⟩, "POS")] }

/-! ### Graphical-abstract generator (src/app.py, lines 112-211) -/

/-- The arrow-label selection of src/app.py lines 192-202: with both labels
and symbols the text is the symbol, a newline and the relationship; with
symbols only, the symbol; with labels only, the relationship; otherwise no
label is drawn (Python's None). -/
def labelText (showLabels showSymbols : Bool) (symbol relationship : String) :
    Option String :=
  if showLabels = true ∧ showSymbols = true then
    some (symbol ++ "\n" ++ relationship)
  else if showSymbols = true then some symbol
  else if showLabels = true then some relationship
  else none

/-- The fixed radius of the circle of independent variables
(src/app.py line 142). -/
noncomputable def radius : ℝ := 0.55

/-- numpy.linspace with endpoint=False: the i-th of num evenly spaced
samples from start (inclusive) to stop (exclusive). -/
noncomputable def linspaceEF (start stop : ℝ) (num i : ℕ) : ℝ :=
  start + (i : ℝ) * ((stop - start) / (num : ℝ))

/-- The angle of the i-th of num independent variables
(src/app.py line 143: np.linspace(0, 2*pi, num, endpoint=False)). -/
noncomputable def angle (num i : ℕ) : ℝ := linspaceEF 0 (2 * Real.pi) num i

/-- The position of the i-th independent-variable node
(src/app.py lines 146-147: x = radius*cos(angle), y = radius*sin(angle)). -/
noncomputable def indepPos (num i : ℕ) : ℝ × ℝ :=
  (radius * Real.cos (angle num i), radius * Real.sin (angle num i))

/-- The dependent variable's position (src/app.py line 122:
center_x, center_y = 0, 0). -/
noncomputable def depPos : ℝ × ℝ := ((0 : ℝ), (0 : ℝ))

/-! ### Methodology-flowchart designer (src/app.py, lines 242-549) -/

/-- A flowchart step as kept in session state: text, shape, color, level and
the indices of its parent steps. -/
structure Step where
  text : String
  shape : String
  color : String
  level : ℕ
  parents : List ℕ
deriving DecidableEq

/-- The level of the step at index p (steps[p]['level']; 0 for an
out-of-range index, which the UI never produces). -/
def levelOf (steps : List Step) (p : ℕ) : ℕ :=
  ((steps.get? p).map Step.level).getD 0

/-- The level assigned to a newly added step (src/app.py lines 283-287):
0 with no parents, otherwise the maximum of the parents' levels plus 1. -/
def newLevel (steps : List Step) : List ℕ → ℕ
  | [] => 0
  | ps => ((ps.map (levelOf steps)).foldl max 0) + 1

/-- Appending a new step (src/app.py lines 289-295). -/
def addStep (steps : List Step) (text shape color : String)
    (parentIndices : List ℕ) : List Step :=
  steps ++ [{ text := text, shape := shape, color := color,
              level := newLevel steps parentIndices,
              parents := parentIndices }]

/-- The per-step parent update after deleting index i (src/app.py line 328):
drop references to i, shift references above i down by one. -/
def reindexParents (i : ℕ) (s : Step) : Step :=
  { text := s.text, shape := s.shape, color := s.color, level := s.level,
    parents := (s.parents.filter (fun p => p ≠ i)).map
      (fun p => if p < i then p else p - 1) }

/-- Deleting step i (src/app.py lines 323-328): pop the step, then update
every remaining step's parent indices. -/
def deleteStep (steps : List Step) (i : ℕ) : List Step :=
  (steps.eraseIdx i).map (reindexParents i)

/-- The maximum level among the steps (src/app.py line 397:
max(levels.keys()); 0 for an empty list, matching the guarded fallback). -/
def maxLevel (steps : List Step) : ℕ :=
  (steps.map Step.level).foldl max 0

/-- The indices grouped at level L, in index order (src/app.py lines
388-393: the insertion-ordered levels dictionary). -/
def levelMembers (steps : List Step) (L : ℕ) : List ℕ :=
  (List.range steps.length).filter (fun i => levelOf steps i = L)

/-- The x-coordinate of the idx-th of k steps sharing a level
(src/app.py lines 404-407): 0 when alone, otherwise
(idx - (k-1)/2) * horizontal_spacing. -/
def xPos (k idx : ℕ) (hs : ℚ) : ℚ :=
  if k = 1 then 0 else ((idx : ℚ) - ((k : ℚ) - 1) / 2) * hs

/-- The y-coordinate of a step at level L (src/app.py lines 401 and 408):
(max_level - L) * vertical_spacing. -/
def yPos (steps : List Step) (L : ℕ) (vs : ℚ) : ℚ :=
  ((maxLevel steps : ℚ) - (L : ℚ)) * vs

/-- The position assigned to step i by the flowchart layout
(src/app.py lines 396-408). -/
def position (steps : List Step) (hs vs : ℚ) (i : ℕ) : ℚ × ℚ :=
  (xPos (levelMembers steps (levelOf steps i)).length
     ((levelMembers steps (levelOf steps i)).indexOf i) hs,
   yPos steps (levelOf steps i) vs)

/-- The default step list the designer starts from
(src/app.py lines 247-253). -/
def demoSteps : List Step :=
  [{ text := "Data Collection", shape := "rounded", color := "#3498db",
     level := 0, parents := [] },
   { text := "Data Preprocessing", shape := "rectangle", color := "#9b59b6",
     level := 1, parents := [0] },
   { text := "Analysis", shape := "diamond", color := "#e74c3c",
     level := 2, parents := [1] },
   { text := "Results", shape := "oval", color := "#2ecc71",
     level := 3, parents := [2] }]

/-! ### Helper lemmas -/

theorem le_foldl_max (l : List ℕ) (a : ℕ) : a ≤ l.foldl max a := by
  induction l generalizing a with
  | nil => exact le_refl a
  | cons x xs ih =>
    exact le_trans (le_max_left a x) (ih (max a x))

theorem mem_le_foldl_max (l : List ℕ) (a x : ℕ) (hx : x ∈ l) :
    x ≤ l.foldl max a := by
  induction l generalizing a with
  | nil => cases hx
  | cons y ys ih =>
    rcases List.mem_cons.mp hx with h | h
    · subst h
      exact le_trans (le_max_right a x) (le_foldl_max ys (max a x))
    · exact ih (max a y) h

theorem foldl_max_mem (l : List ℕ) (a : ℕ) :
    l.foldl max a = a ∨ l.foldl max a ∈ l := by
  induction l generalizing a with
  | nil => exact Or.inl rfl
  | cons x xs ih =>
    simp only [List.foldl_cons]
    rcases ih (max a x) with h | h
    · rcases max_choice a x with hc | hc
      · exact Or.inl (h.trans hc)
      · exact Or.inr (List.mem_cons.mpr (Or.inl (h.trans hc)))
    · exact Or.inr (List.mem_cons.mpr (Or.inr h))

theorem lookupColor_eq_none (l : List (String × String)) (code : String)
    (h : ∀ pr ∈ l, pr.1 ≠ code) : lookupColor l code = none := by
  induction l with
  | nil => rfl
  | cons pr rest ih =>
    have h1 : pr.1 ≠ code := h pr (List.mem_cons_self pr rest)
    have h2 : ∀ q ∈ rest, q.1 ≠ code :=
      fun q hq => h q (List.mem_cons_of_mem pr hq)
    simp only [lookupColor]
    rw [if_neg (fun hc => h1 hc.symm)]
    exact ih h2

theorem knownColorTable_keys :
    ∀ pr ∈ knownColorTable, pr.1 ∈ knownCodes := by decide

/-! ### Claims about the spec-modelled builder -/

/-- C1: the resolved edge style follows the fixed rule set — INS resolves to
dotted; a code containing N and not equal to NEG resolves to dashed; a code
starting with O resolves to bold; any other code resolves to solid — with
the contains-N check evaluated before the starts-with-O check, so OIN
resolves to dashed, not bold. -/
theorem edgeStyle_spec (code : String) :
    (code = "INS" → edgeStyle code = "dotted") ∧
    (code ≠ "INS" → code.toList.contains 'N' = true → code ≠ "NEG" →
      edgeStyle code = "dashed") ∧
    (code ≠ "INS" → ¬(code.toList.contains 'N' = true ∧ code ≠ "NEG") →
      code.toList.take 1 = ['O'] → edgeStyle code = "bold") ∧
    (code ≠ "INS" → ¬(code.toList.contains 'N' = true ∧ code ≠ "NEG") →
      code.toList.take 1 ≠ ['O'] → edgeStyle code = "solid") ∧
    edgeStyle "OIN" = "dashed" ∧ edgeStyle "OIN" ≠ "bold" := by
  refine ⟨?_, ?_, ?_, ?_, by decide, by decide⟩
  · intro h
    simp only [edgeStyle]
    rw [if_pos h]
  · intro h1 h2 h3
    simp only [edgeStyle]
    rw [if_neg h1, if_pos ⟨h2, h3⟩]
  · intro h1 h2 h3
    simp only [edgeStyle]
    rw [if_neg h1, if_neg h2, if_pos h3]
  · intro h1 h2 h3
    simp only [edgeStyle]
    rw [if_neg h1, if_neg h2, if_neg h3]

/-- C1 witness: the rule evaluated at the concrete codes OIN, INS, OP and
POS. -/
theorem edgeStyle_spec_witness :
    edgeStyle "OIN" = "dashed" ∧ edgeStyle "INS" = "dotted" ∧
    edgeStyle "OP" = "bold" ∧ edgeStyle "POS" = "solid" :=
  ⟨(edgeStyle_spec "OIN").2.1 (by decide) (by decide) (by decide),
   (edgeStyle_spec "INS").1 rfl,
   (edgeStyle_spec "OP").2.2.1 (by decide) (by decide) (by decide),
   (edgeStyle_spec "POS").2.2.2.1 (by decide) (by decide) (by decide)⟩

/-- C2 counterexample: the unknown code NXX resolves to the fallback color,
but its style is dashed — the pattern rules apply to unknown codes too, so
not every unknown code resolves to style solid. -/
theorem unknownCode_counterexample :
    "NXX" ∉ knownCodes ∧
    (build { dependent := "GDP", edges := [(⟨"X", ""⟩, "NXX")] }
        defaultStyleConfig).toOption.map
      (fun g => g.edges.map (fun e => (e.color, e.style))) =
      some [("#7F8C8D", "dashed")] ∧
    edgeStyle "NXX" ≠ "solid" := by decide

/-- C2 amended: an edge with an unknown relationship code is accepted — the
build never fails because of it — and resolves to the fallback color
#7F8C8D (when the style map covers only known codes); its style follows the
pattern rules, which give solid for a code such as XYZ that matches no
pattern, but e.g. dashed for an unknown code containing N. -/
theorem unknownCode_fallback (s : StyleConfig) (code : String)
    (hdom : ∀ pr ∈ s.colorMap, pr.1 ∈ knownCodes)
    (hcode : code ∉ knownCodes)
    (d : Diagram) (hdep : d.dependent ≠ "")
    (hnames : ∀ e ∈ d.edges, e.1.name ≠ "") :
    resolveColor s code = "#7F8C8D" ∧
    (∃ g, build d s = Except.ok g) ∧
    edgeStyle "XYZ" = "solid" := by
  refine ⟨?_, ?_, by decide⟩
  · have h1 : lookupColor s.colorMap code = none :=
      lookupColor_eq_none _ _
        (fun pr hpr hc => hcode (hc ▸ hdom pr hpr))
    have h2 : lookupColor knownColorTable code = none :=
      lookupColor_eq_none _ _
        (fun pr hpr hc => hcode (hc ▸ knownColorTable_keys pr hpr))
    simp [resolveColor, h1, h2]
  · have h2 : ¬ (d.edges.any (fun e => e.1.name = "") = true) := by
      simp only [List.any_eq_true, decide_eq_true_eq, not_exists]
      intro e he
      exact hnames e he.1 he.2
    simp only [build]
    rw [if_neg hdep, if_neg h2]
    exact ⟨_, rfl⟩

/-- C2 witness: the amended statement at the concrete unknown code XYZ with
the default style configuration and the worked-example diagram. -/
theorem unknownCode_fallback_witness :
    resolveColor defaultStyleConfig "XYZ" = "#7F8C8D" ∧
    (∃ g, build demoDiagram defaultStyleConfig = Except.ok g) ∧
    edgeStyle "XYZ" = "solid" :=
  unknownCode_fallback defaultStyleConfig "XYZ" (by decide) (by decide)
    demoDiagram (by decide) (by decide)

/-- C3: the build fails with a ValidationError whenever the dependent
variable name is empty or any edge references an empty variable name, and in
these cases no GraphIR is produced — the output is all-or-nothing. -/
theorem build_validation (d : Diagram) (s : StyleConfig)
    (h : d.dependent = "" ∨ ∃ e ∈ d.edges, e.1.name = "") :
    (build d s = Except.error ValidationError.emptyDependent ∨
     build d s = Except.error ValidationError.emptyVariableName) ∧
    ∀ g, build d s ≠ Except.ok g := by
  have key : build d s = Except.error ValidationError.emptyDependent ∨
      build d s = Except.error ValidationError.emptyVariableName := by
    by_cases hd : d.dependent = ""
    · left
      simp only [build]
      rw [if_pos hd]
    · right
      rcases h with h | ⟨e, he, hn⟩
      · exact absurd h hd
      · have ha : d.edges.any (fun e => e.1.name = "") = true := by
          simp only [List.any_eq_true, decide_eq_true_eq]
          exact ⟨e, he, hn⟩
        simp only [build]
        rw [if_neg hd, if_pos ha]
  refine ⟨key, ?_⟩
  intro g hg
  rcases key with k | k <;> rw [k] at hg <;> exact Except.noConfusion hg

/-- C3 witness: the validation at a concrete diagram with an empty dependent
variable name. -/
theorem build_validation_witness :
    (build { dependent := "", edges := [(⟨"Inflation", ""⟩, "NEG")] }
        defaultStyleConfig = Except.error ValidationError.emptyDependent ∨
     build { dependent := "", edges := [(⟨"Inflation", ""⟩, "NEG")] }
        defaultStyleConfig = Except.error ValidationError.emptyVariableName) ∧
    ∀ g, build { dependent := "", edges := [(⟨"Inflation", ""⟩, "NEG")] }
        defaultStyleConfig ≠ Except.ok g :=
  build_validation _ defaultStyleConfig (Or.inl rfl)

/-- C4: the build is deterministic — two calls with equal Diagram and
StyleConfig inputs produce identical output; the embedding is a pure
function with no randomness, hidden state or I/O. -/
theorem build_deterministic (d₁ d₂ : Diagram) (s₁ s₂ : StyleConfig)
    (hd : d₁ = d₂) (hs : s₁ = s₂) : build d₁ s₁ = build d₂ s₂ := by
  rw [hd, hs]

/-- C4 witness: determinism at the worked example's concrete inputs. -/
theorem build_deterministic_witness :
    build demoDiagram defaultStyleConfig =
      build demoDiagram defaultStyleConfig :=
  build_deterministic demoDiagram demoDiagram defaultStyleConfig
    defaultStyleConfig rfl rfl

/-- C5: in the radial layout the i-th of num independent variables gets the
angle 2π·i/num, its coordinate lies at Euclidean distance radius from the
origin, and the dependent variable sits at the origin. -/
theorem radial_layout (num i : ℕ) (hnum : 0 < num) (hi : i < num) :
    angle num i = 2 * Real.pi * (i : ℝ) / (num : ℝ) ∧
    Real.sqrt ((indepPos num i).1 ^ 2 + (indepPos num i).2 ^ 2) = radius ∧
    depPos = ((0 : ℝ), (0 : ℝ)) := by
  refine ⟨?_, ?_, rfl⟩
  · simp only [angle, linspaceEF]
    ring
  · have hsum : (indepPos num i).1 ^ 2 + (indepPos num i).2 ^ 2 =
        radius ^ 2 := by
      simp only [indepPos]
      calc (radius * Real.cos (angle num i)) ^ 2 +
            (radius * Real.sin (angle num i)) ^ 2
          = radius ^ 2 *
            (Real.cos (angle num i) ^ 2 + Real.sin (angle num i) ^ 2) := by
            ring
        _ = radius ^ 2 := by
            rw [Real.cos_sq_add_sin_sq, mul_one]
    rw [hsum]
    apply Real.sqrt_sq
    simp only [radius]
    norm_num

/-- C5 witness: the radial layout evaluated at num = 4, i = 1: the angle is
π/2 and the node sits at distance radius from the origin. -/
theorem radial_layout_witness :
    angle 4 1 = Real.pi / 2 ∧
    Real.sqrt ((indepPos 4 1).1 ^ 2 + (indepPos 4 1).2 ^ 2) = radius := by
  have h := radial_layout 4 1 (by norm_num) (by norm_num)
  refine ⟨?_, h.2.1⟩
  rw [h.1]
  push_cast
  ring

/-- C6: for dependent GDP with edges Inflation-NEG and Tourism-POS, the
result has exactly 3 nodes (GDP, Inflation, Tourism) and 2 edges; the
Inflation edge has style solid and the NEG color #E74C3C, and the Tourism
edge has style solid and the POS entry's color. -/
theorem example_gdp :
    (build demoDiagram defaultStyleConfig).toOption.map
        (fun g => (g.nodes.map Node.id, g.edges.map
          (fun e => (e.source, e.target, e.style, e.color)))) =
      some (["GDP", "Inflation", "Tourism"],
        [("Inflation", "GDP", "solid", "#E74C3C"),
         ("Tourism", "GDP", "solid",
          resolveColor defaultStyleConfig "POS")]) ∧
    (build demoDiagram defaultStyleConfig).toOption.map
        (fun g => (g.nodes.length, g.edges.length)) = some (3, 2) := by
  decide

/-! ### Claims about the graphical-abstract generator in src/app.py -/

/-- C7 counterexample: with labels and symbols both enabled the arrow text
is the symbol, a newline and the relationship — not the relationship alone —
and with labels disabled but symbols enabled the arrow text is the symbol,
not empty. -/
theorem labelText_counterexample :
    labelText true true "+" "Positive" ≠ some "Positive" ∧
    labelText false true "+" "Positive" ≠ none ∧
    labelText false true "+" "Positive" ≠ some "" := by decide

/-- C7 amended: the resolved arrow text is the relationship exactly when
labels are enabled and symbols disabled; with both enabled it is the symbol,
a newline and the relationship; with only symbols enabled it is the symbol;
it is absent only when labels and symbols are both disabled. -/
theorem labelText_cases (symbol relationship : String) :
    labelText true false symbol relationship = some relationship ∧
    labelText false false symbol relationship = none ∧
    labelText true true symbol relationship =
      some (symbol ++ "\n" ++ relationship) ∧
    labelText false true symbol relationship = some symbol := by
  refine ⟨?_, ?_, ?_, ?_⟩ <;> simp [labelText]

/-! ### Claims about the flowchart designer in src/app.py -/

/-- C8: a newly added flowchart step gets level 0 when it has no parents,
and otherwise one more than the maximum of its parents' levels. -/
theorem addStep_level (steps : List Step) (t sh c : String) (ps : List ℕ) :
    (addStep steps t sh c ps).getLast? =
      some { text := t, shape := sh, color := c,
             level := newLevel steps ps, parents := ps } ∧
    (ps = [] → newLevel steps ps = 0) ∧
    (ps ≠ [] →
      (∃ p ∈ ps, newLevel steps ps = levelOf steps p + 1) ∧
      ∀ q ∈ ps, levelOf steps q < newLevel steps ps) := by
  refine ⟨?_, ?_, ?_⟩
  · simp only [addStep]
    exact List.getLast?_concat _
  · intro h
    rw [h]
    rfl
  · intro hne
    cases ps with
    | nil => exact absurd rfl hne
    | cons p ps' =>
      have hlvl : newLevel steps (p :: ps') =
          (((p :: ps').map (levelOf steps)).foldl max 0) + 1 := rfl
      constructor
      · rcases foldl_max_mem ((p :: ps').map (levelOf steps)) 0 with h0 | hm
        · refine ⟨p, List.mem_cons_self p ps', ?_⟩
          have hle : levelOf steps p ≤
              ((p :: ps').map (levelOf steps)).foldl max 0 :=
            mem_le_foldl_max _ _ _
              (List.mem_map_of_mem (levelOf steps) (List.mem_cons_self p ps'))
          rw [hlvl]
          omega
        · rcases List.mem_map.mp hm with ⟨q, hq, hqe⟩
          exact ⟨q, hq, by rw [hlvl, hqe]⟩
      · intro q hq
        have hle : levelOf steps q ≤
            ((p :: ps').map (levelOf steps)).foldl max 0 :=
          mem_le_foldl_max _ _ _
            (List.mem_map_of_mem (levelOf steps) hq)
        rw [hlvl]
        omega

/-- C8 witness: adding a step with parents 1 and 3 to the default step list
gives level 4 = max(1, 3) + 1, and adding a parentless step gives level 0. -/
theorem addStep_level_witness :
    ((addStep demoSteps "Robustness" "rectangle" "#000000" [1, 3]).getLast? =
      some { text := "Robustness", shape := "rectangle", color := "#000000",
             level := newLevel demoSteps [1, 3], parents := [1, 3] }) ∧
    ((∃ p ∈ [1, 3], newLevel demoSteps [1, 3] = levelOf demoSteps p + 1) ∧
      ∀ q ∈ [1, 3], levelOf demoSteps q < newLevel demoSteps [1, 3]) ∧
    newLevel demoSteps [] = 0 :=
  ⟨(addStep_level demoSteps "Robustness" "rectangle" "#000000" [1, 3]).1,
   (addStep_level demoSteps "Robustness" "rectangle" "#000000" [1, 3]).2.2
     (by decide),
   (addStep_level demoSteps "x" "rectangle" "#000000" []).2.1 rfl⟩

/-- C9: after deleting step i, each remaining step's parents are exactly the
old parents other than i, with references above i shifted down by one and
references below i unchanged; every parent index remains a valid index into
the shortened list. -/
theorem deleteStep_spec (steps : List Step) (i : ℕ)
    (hi : i < steps.length)
    (hvalid : ∀ s ∈ steps, ∀ p ∈ s.parents, p < steps.length) :
    (deleteStep steps i).length = steps.length - 1 ∧
    (∀ s ∈ steps.eraseIdx i,
      (∀ p ∈ s.parents, p ≠ i →
        (if p < i then p else p - 1) ∈ (reindexParents i s).parents) ∧
      (∀ q ∈ (reindexParents i s).parents,
        ∃ p ∈ s.parents, p ≠ i ∧ q = if p < i then p else p - 1)) ∧
    (∀ s ∈ deleteStep steps i, ∀ q ∈ s.parents,
      q < (deleteStep steps i).length) := by
  have hlen : (deleteStep steps i).length = steps.length - 1 := by
    simp only [deleteStep, List.length_map]
    exact List.length_eraseIdx_of_lt hi
  refine ⟨hlen, ?_, ?_⟩
  · intro s _
    constructor
    · intro p hp hpne
      simp only [reindexParents, List.mem_map, List.mem_filter,
        decide_eq_true_eq]
      exact ⟨p, ⟨hp, hpne⟩, rfl⟩
    · intro q hq
      simp only [reindexParents, List.mem_map, List.mem_filter,
        decide_eq_true_eq] at hq
      rcases hq with ⟨p, ⟨hp, hpne⟩, hpe⟩
      exact ⟨p, hp, hpne, hpe.symm⟩
  · intro s hs q hq
    simp only [deleteStep, List.mem_map] at hs
    rcases hs with ⟨s₀, hs₀, rfl⟩
    simp only [reindexParents, List.mem_map, List.mem_filter,
      decide_eq_true_eq] at hq
    rcases hq with ⟨p, ⟨hp, hpne⟩, rfl⟩
    have hps : p < steps.length :=
      hvalid s₀ (List.mem_of_mem_eraseIdx hs₀) p hp
    rw [hlen]
    by_cases hlt : p < i
    · rw [if_pos hlt]
      omega
    · rw [if_neg hlt]
      omega

/-- C9 witness: deleting step 1 from the default step list — step 2's
reference to the deleted step 1 disappears, step 3's reference to step 2
becomes 1, and all surviving parent indices are valid in the 3-step list. -/
theorem deleteStep_spec_witness :
    (deleteStep demoSteps 1).length = demoSteps.length - 1 ∧
    (∀ s ∈ demoSteps.eraseIdx 1,
      (∀ p ∈ s.parents, p ≠ 1 →
        (if p < 1 then p else p - 1) ∈ (reindexParents 1 s).parents) ∧
      (∀ q ∈ (reindexParents 1 s).parents,
        ∃ p ∈ s.parents, p ≠ 1 ∧ q = if p < 1 then p else p - 1)) ∧
    (∀ s ∈ deleteStep demoSteps 1, ∀ q ∈ s.parents,
      q < (deleteStep demoSteps 1).length) :=
  deleteStep_spec demoSteps 1 (by decide) (by decide)

theorem mem_levelMembers (steps : List Step) (L i : ℕ) :
    i ∈ levelMembers steps L ↔ i < steps.length ∧ levelOf steps i = L := by
  simp [levelMembers, List.mem_filter, List.mem_range]

theorem levelMembers_nodup (steps : List Step) (L : ℕ) :
    (levelMembers steps L).Nodup :=
  (List.nodup_range _).filter _

theorem position_fst_of_mem (steps : List Step) (hs vs : ℚ) (L m : ℕ)
    (hm : m < (levelMembers steps L).length) :
    (position steps hs vs ((levelMembers steps L).getD m 0)).1 =
      xPos (levelMembers steps L).length m hs := by
  have hget : (levelMembers steps L).getD m 0 =
      (levelMembers steps L)[m] := List.getD_eq_getElem _ 0 hm
  have hxmem : (levelMembers steps L).getD m 0 ∈ levelMembers steps L := by
    rw [hget]
    exact List.getElem_mem hm
  have hlev : levelOf steps ((levelMembers steps L).getD m 0) = L :=
    ((mem_levelMembers steps L _).mp hxmem).2
  have hidx : (levelMembers steps L).indexOf
      ((levelMembers steps L).getD m 0) = m := by
    rw [hget]
    exact List.indexOf_getElem (levelMembers_nodup steps L) m hm
  simp only [position, hlev, hidx]

theorem xPos_succ_sub (k m : ℕ) (hs : ℚ) (hm : m + 1 < k) :
    xPos k (m + 1) hs - xPos k m hs = hs := by
  have hk : k ≠ 1 := by omega
  simp only [xPos, if_neg hk]
  push_cast
  ring

theorem xPos_symm (k m : ℕ) (hs : ℚ) (hm : m < k) :
    xPos k m hs + xPos k (k - 1 - m) hs = 0 := by
  by_cases hk : k = 1
  · subst hk
    have hm0 : m = 0 := by omega
    subst hm0
    simp [xPos]
  · simp only [xPos, if_neg hk]
    have h1 : 1 ≤ k := by omega
    have h2 : m ≤ k - 1 := by omega
    have hcast : ((k - 1 - m : ℕ) : ℚ) = (k : ℚ) - 1 - (m : ℚ) := by
      rw [Nat.cast_sub h2, Nat.cast_sub h1, Nat.cast_one]
    rw [hcast]
    ring

/-- C10: every step at level L gets the y-coordinate
(max_level − L) · vertical_spacing, so steps sharing a level share a
y-coordinate and deeper levels are strictly lower; a step alone on its level
gets x = 0, and the k steps of a level get x-coordinates spaced by
horizontal_spacing and symmetric about 0. -/
theorem flowchart_layout (steps : List Step) (hs vs : ℚ) (i j : ℕ)
    (hvs : 0 < vs) :
    ((position steps hs vs i).2 =
      ((maxLevel steps : ℚ) - (levelOf steps i : ℚ)) * vs) ∧
    (levelOf steps i = levelOf steps j →
      (position steps hs vs i).2 = (position steps hs vs j).2) ∧
    (levelOf steps i < levelOf steps j →
      (position steps hs vs j).2 < (position steps hs vs i).2) ∧
    ((levelMembers steps (levelOf steps i)).length = 1 →
      (position steps hs vs i).1 = 0) ∧
    (∀ L m, m + 1 < (levelMembers steps L).length →
      (position steps hs vs ((levelMembers steps L).getD (m + 1) 0)).1 -
        (position steps hs vs ((levelMembers steps L).getD m 0)).1 = hs) ∧
    (∀ L m, m < (levelMembers steps L).length →
      (position steps hs vs ((levelMembers steps L).getD m 0)).1 +
        (position steps hs vs ((levelMembers steps L).getD
          ((levelMembers steps L).length - 1 - m) 0)).1 = 0) := by
  refine ⟨rfl, ?_, ?_, ?_, ?_, ?_⟩
  · intro h
    simp only [position, yPos, h]
  · intro h
    simp only [position, yPos]
    have hlt : ((levelOf steps j : ℚ)) > (levelOf steps i : ℚ) := by
      exact_mod_cast h
    have hsub : (maxLevel steps : ℚ) - (levelOf steps j : ℚ) <
        (maxLevel steps : ℚ) - (levelOf steps i : ℚ) := by linarith
    exact mul_lt_mul_of_pos_right hsub hvs
  · intro h
    simp only [position, xPos, h, if_pos]
  · intro L m hm
    rw [position_fst_of_mem steps hs vs L (m + 1) hm,
      position_fst_of_mem steps hs vs L m (by omega)]
    exact xPos_succ_sub _ _ _ hm
  · intro L m hm
    rw [position_fst_of_mem steps hs vs L m hm,
      position_fst_of_mem steps hs vs L _ (by omega)]
    exact xPos_symm _ _ _ hm

/-- C10 witness: the layout of the default step list with horizontal
spacing 5/2 and vertical spacing 6/5 at steps 1 and 2. -/
theorem flowchart_layout_witness :
    ((position demoSteps (5/2) (6/5) 1).2 =
      ((maxLevel demoSteps : ℚ) - (levelOf demoSteps 1 : ℚ)) * (6/5)) ∧
    (levelOf demoSteps 1 = levelOf demoSteps 2 →
      (position demoSteps (5/2) (6/5) 1).2 =
        (position demoSteps (5/2) (6/5) 2).2) ∧
    (levelOf demoSteps 1 < levelOf demoSteps 2 →
      (position demoSteps (5/2) (6/5) 2).2 <
        (position demoSteps (5/2) (6/5) 1).2) ∧
    ((levelMembers demoSteps (levelOf demoSteps 1)).length = 1 →
      (position demoSteps (5/2) (6/5) 1).1 = 0) ∧
    (∀ L m, m + 1 < (levelMembers demoSteps L).length →
      (position demoSteps (5/2) (6/5)
          ((levelMembers demoSteps L).getD (m + 1) 0)).1 -
        (position demoSteps (5/2) (6/5)
          ((levelMembers demoSteps L).getD m 0)).1 = 5/2) ∧
    (∀ L m, m < (levelMembers demoSteps L).length →
      (position demoSteps (5/2) (6/5)
          ((levelMembers demoSteps L).getD m 0)).1 +
        (position demoSteps (5/2) (6/5)
          ((levelMembers demoSteps L).getD
            ((levelMembers demoSteps L).length - 1 - m) 0)).1 = 0) :=
  flowchart_layout demoSteps (5/2) (6/5) 1 2 (by norm_num)

end GraphApp
